import Mathlib

/-!
Verification of the critical-CSS core (`src/index.js` of vueneue/critters).

The development shallowly embeds the two operations of the `Critters` class —
`embedLinkedStylesheet` (the delivery rewriter) and `processStyle` (rule
pruning and font analysis) — together with the small string algorithms they
use (the pseudo-class stripping pattern, the `url(...)` extraction pattern,
the `\bfont\b` property test, `JSON.stringify` of strings).

The DOM and CSS collaborators (`src/dom.js`, `src/css.js`) are not part of
the core source; where their behaviour decides a property they are modelled
from the specification (see the doc comments marked "Modelled from the
spec:"), and otherwise they are passed in as capability parameters (a
selector query `String → Bool`, a parser `String → List Rule`, a serializer
`List Rule → Bool → String`), matching the capability interface the
specification gives them.
-/

namespace Critters

/-! # Definitions -/

/-! ## Basic string helpers (JS semantics) -/

/-- Character class of the JavaScript regex `\s` (restricted to the ASCII
whitespace characters that can occur in the inputs considered here). -/
def isSpace (c : Char) : Bool :=
  c = ' ' || c = '\t' || c = '\n' || c = '\r' || c = '\x0b' || c = '\x0c'

/-- Drop leading `\s` characters. -/
def skipSpaces : List Char → List Char
  | [] => []
  | c :: cs => if isSpace c then skipSpaces cs else c :: cs

/-- `String.prototype.trim`: remove whitespace from both ends. -/
def jsTrim (s : String) : String :=
  String.mk (((s.toList.dropWhile isSpace).reverse.dropWhile isSpace).reverse)

/-- Does `hay` start with `pat` (on character lists)? -/
def startsWithL : List Char → List Char → Bool
  | _, [] => true
  | [], _ :: _ => false
  | c :: cs, p :: ps => c = p && startsWithL cs ps

/-- Does `pat` occur somewhere in `hay`?  This is `hay.indexOf(pat) !== -1`
in JavaScript (an empty pattern occurs in every string). -/
def containsL (pat : List Char) : List Char → Bool
  | [] => startsWithL [] pat
  | c :: cs => startsWithL (c :: cs) pat || containsL pat cs

/-- `hay.indexOf(pat) !== -1`. -/
def strContains (hay pat : String) : Bool :=
  containsL pat.toList hay.toList

/-- `s.startsWith(pre)` / an anchored regex prefix test. -/
def jsStartsWith (s pre : String) : Bool :=
  startsWithL s.toList pre.toList

/-- `String.prototype.replace` with a plain (nonempty) string pattern:
replace the first occurrence only. -/
def replaceFirstL (pat sub : List Char) : List Char → List Char
  | [] => []
  | c :: cs =>
    if startsWithL (c :: cs) pat then sub ++ (c :: cs).drop pat.length
    else c :: replaceFirstL pat sub cs

def replaceFirst (s pat sub : String) : String :=
  String.mk (replaceFirstL pat.toList sub.toList s.toList)

/-! ## Ordered attribute maps (the DOM attribute interface) -/

/-- `getAttribute`: first binding of the key, if any. -/
def getAttr (attrs : List (String × String)) (k : String) : Option String :=
  (attrs.find? (fun p => p.1 = k)).map (fun p => p.2)

/-- `setAttribute`: replace the existing binding in place, else append. -/
def setAttr (attrs : List (String × String)) (k v : String) :
    List (String × String) :=
  if attrs.any (fun p => p.1 = k) then
    attrs.map (fun p => if p.1 = k then (k, v) else p)
  else attrs ++ [(k, v)]

/-- `removeAttribute`. -/
def removeAttr (attrs : List (String × String)) (k : String) :
    List (String × String) :=
  attrs.filter (fun p => p.1 ≠ k)

/-- Truthiness of a JS string that may be `null`/absent: `null` and `""` are
falsy. -/
def truthy : Option String → Bool
  | none => false
  | some s => s ≠ ""

/-! ## The pseudo-class stripping pattern

`src/index.js` line 222 strips pseudo-classes and pseudo-elements with

  `sel.replace(/::?(?:[a-z-]+)([.[#~&^:*]|\s|\n|$)/gi, "$1")`

A match is one or two colons, a maximal nonempty run of letters/hyphens
(case-insensitive; a shorter run never helps, because the follow set below
contains no letter or hyphen), followed by a character of the class
`[.[#~&^:*]`, a whitespace character, or the end of the string; the follow
character is captured and kept by the `$1` replacement.  The global scan
resumes after the full match (so a follow character consumed as `$1` is not
reconsidered as the start of the next match), which the recursion below
reproduces. -/

/-- Letters and hyphen: the class `[a-z-]` under the `i` flag. -/
def isPseudoNameChar (c : Char) : Bool :=
  ('a' ≤ c && c ≤ 'z') || ('A' ≤ c && c ≤ 'Z') || c = '-'

/-- The explicit follow characters `[.[#~&^:*]`. -/
def isFollowChar (c : Char) : Bool :=
  c = '.' || c = '[' || c = '#' || c = '~' || c = '&' || c = '^' ||
  c = ':' || c = '*'

/-- Match the name-and-follow part of the pseudo pattern (everything after
the colons); returns the captured group (`$1` as characters) and the rest of
the input after the full match. -/
def pseudoTail (cs1 : List Char) : Option (List Char × List Char) :=
  if (cs1.takeWhile isPseudoNameChar).isEmpty then none
  else match cs1.dropWhile isPseudoNameChar with
    | [] => some ([], [])
    | c :: rest' =>
      if isFollowChar c || isSpace c then some ([c], rest') else none

/-- Try to match the pseudo pattern right after an initial `:` (already
consumed).  `::?` greedily takes a second colon when present; backtracking
to a single colon can never succeed afterwards, because the name would then
have to start at that second colon, which is not a name character. -/
def tryPseudo (cs : List Char) : Option (List Char × List Char) :=
  match cs with
  | ':' :: rest => pseudoTail rest
  | _ => pseudoTail cs

/-- Global replace of the pseudo pattern by its captured group, written with
an explicit fuel parameter so that the definition is structurally recursive
and reduces by evaluation.  Each step consumes at least one character of the
input (`tryPseudo_length`), so any fuel of at least the input's length gives
the same result (`stripGo_fuel`); `stripPseudosL` passes exactly the
length. -/
def stripGo : Nat → List Char → List Char
  | _, [] => []
  | 0, l => l
  | fuel + 1, c :: cs =>
    if c = ':' then
      match tryPseudo cs with
      | some (cap, rest) => cap ++ stripGo fuel rest
      | none => c :: stripGo fuel cs
    else c :: stripGo fuel cs

def stripPseudosL (l : List Char) : List Char :=
  stripGo l.length l

/-- The selector normalization of `src/index.js` line 222:
`sel.replace(/::?(?:[a-z-]+)([.[#~&^:*]|\s|\n|$)/gi, "$1")`. -/
def stripPseudos (sel : String) : String :=
  String.mk (stripPseudosL sel.toList)

/-! ## The `url(...)` extraction pattern

`src/index.js` line 262 extracts a font source with

  `(decl.value.match(/url\s*\(\s*(['"]?)(.+?)\1\s*\)/) || [])[2]`

i.e. the second capture group of the first (leftmost) match.  A match is the
literal `url` (case-sensitive, no `i` flag), optional whitespace, `(`,
optional whitespace, an optional quote character (greedy, captured), then a
lazy nonempty body (`.` does not cross line terminators), the same quote
again, optional whitespace and `)`.  When a present quote cannot be closed
the engine backtracks and retries with the empty quote, in which case the
quote character becomes part of the body. -/

/-- Characters the dot of the pattern refuses (JS line terminators). -/
def isLineTerm (c : Char) : Bool :=
  c = '\n' || c = '\r'

/-- Does the close sequence (`\1\s*\)` for quote `q`, or `\s*\)` for the
empty quote) start here? -/
def closesAt (q : Option Char) (cs : List Char) : Bool :=
  match q with
  | some qc =>
    match cs with
    | c :: rest => c = qc && (match skipSpaces rest with
      | ')' :: _ => true
      | _ => false)
    | [] => false
  | none =>
    match skipSpaces cs with
    | ')' :: _ => true
    | _ => false

/-- Lazy scan for the body `(.+?)`: the shortest nonempty prefix after which
the close sequence matches. -/
def bodyScan (q : Option Char) (acc : List Char) : List Char → Option (List Char)
  | [] => none
  | c :: cs =>
    if isLineTerm c then none
    else if closesAt q cs then some (acc ++ [c])
    else bodyScan q (acc ++ [c]) cs

/-- Try the whole pattern at this position of the input. -/
def tryUrlAt (cs : List Char) : Option (List Char) :=
  match cs with
  | 'u' :: 'r' :: 'l' :: cs1 =>
    (match skipSpaces cs1 with
     | '(' :: cs2 =>
       let cs3 := skipSpaces cs2
       match cs3 with
       | q :: cs4 =>
         if q = '\'' || q = '"' then
           match bodyScan (some q) [] cs4 with
           | some body => some body
           | none => bodyScan none [] cs3
         else bodyScan none [] cs3
       | [] => none
     | _ => none)
  | _ => none

/-- Leftmost match: try every start position from the left. -/
def extractUrlGo : List Char → Option String
  | [] => none
  | c :: cs =>
    match tryUrlAt (c :: cs) with
    | some body => some (String.mk body)
    | none => extractUrlGo cs

/-- The `src` URL extracted from a declaration value by `src/index.js`
line 262 (`undefined`, i.e. `none`, when the pattern does not match). -/
def extractUrl (s : String) : Option String :=
  extractUrlGo s.toList

/-! ## The `\bfont\b` property test (`src/index.js` line 233) -/

/-- JS `\w`: ASCII letters, digits and underscore. -/
def isWordChar (c : Char) : Bool :=
  c.isAlpha || c.isDigit || c = '_'

/-- Case-insensitive comparison against a lowercase target letter. -/
def lowerIs (c t : Char) : Bool :=
  c.toLower = t

/-- Does `font` (case-insensitive) occur here, followed by a word
boundary? -/
def fontAt : List Char → Bool
  | a :: b :: c :: d :: rest =>
    lowerIs a 'f' && lowerIs b 'o' && lowerIs c 'n' && lowerIs d 't' &&
      (match rest with
       | [] => true
       | e :: _ => !isWordChar e)
  | _ => false

/-- Scan carrying the previous character (for the left word boundary). -/
def hasFontWordGo : Option Char → List Char → Bool
  | _, [] => false
  | prev, c :: cs =>
    ((match prev with
      | none => true
      | some p => !isWordChar p) && fontAt (c :: cs)) ||
    hasFontWordGo (some c) cs

/-- `decl.property.match(/\bfont\b/i) != null`. -/
def hasFontWord (s : String) : Bool :=
  hasFontWordGo none s.toList

/-! ## `JSON.stringify` of a string (used for the loader script argument) -/

/-- Hexadecimal digit. -/
def hexDigit (n : Nat) : Char :=
  if n < 10 then Char.ofNat ('0'.toNat + n) else Char.ofNat ('a'.toNat + n - 10)

/-- JSON escape of a single character. -/
def jsonEscapeChar (c : Char) : String :=
  if c = '"' then "\\\""
  else if c = '\\' then "\\\\"
  else if c = '\n' then "\\n"
  else if c = '\r' then "\\r"
  else if c = '\t' then "\\t"
  else if c = '\x08' then "\\b"
  else if c = '\x0c' then "\\f"
  else if c.toNat < 32 then
    String.mk ['\\', 'u', '0', '0', hexDigit (c.toNat / 16), hexDigit (c.toNat % 16)]
  else String.singleton c

/-- `JSON.stringify` applied to a string. -/
def jsonStringify (s : String) : String :=
  "\"" ++ String.join (s.toList.map jsonEscapeChar) ++ "\""

/-! ## Data model

The stylesheet AST mirrors the rule shapes `src/index.js` distinguishes: a
declaration is a property/value pair; a rule is a style rule (`type ===
"rule"`, with a selector list and declarations), a font-face rule (`type ===
"font-face"`, with declarations), a container rule (any rule carrying a
nested `rules` list, e.g. `@media`), or some other leaf at-rule (no
selectors, no nested rules, e.g. `@import`). -/

structure Decl where
  property : String
  value : String
deriving DecidableEq, Repr

inductive Rule where
  | style (selectors : List String) (declarations : List Decl)
  | fontFace (declarations : List Decl)
  | container (rules : List Rule)
  | atOther (text : String)
deriving Repr

/-- A DOM node, as far as the core manipulates them: an element with a tag,
ordered attributes and children, or a text node. -/
inductive Node where
  | element (tag : String) (attrs : List (String × String)) (children : List Node)
  | text (s : String)
deriving Repr

/-- The value of `options.preload`.  `unset` is an absent key (which takes
the default strategy branch), `off` is the literal `false`. -/
inductive PreloadVal where
  | unset
  | off
  | body
  | media
  | swap
  | js
  | jsLazy
deriving DecidableEq, Repr

/-- The options object handed to `new Critters(options)`.  `Option Bool`
fields distinguish an absent key (`none`) from the literals `true`/`false`;
`filter` is the URL predicate (`this.urlFilter`, with a `RegExp` already
bound to its `test` method by the constructor). -/
structure Options where
  external : Option Bool := none
  preload : PreloadVal := .unset
  noscriptFallback : Option Bool := none
  inlineFonts : Option Bool := none
  preloadFonts : Option Bool := none
  fonts : Option Bool := none
  compress : Option Bool := none
  filter : Option (String → Bool) := none

/-- Options with every key absent (`new Critters()` / `new Critters({})`). -/
def defaultOptions : Options := {}

/-! ## Font feature flags (`src/index.js` lines 247-250) -/

/-- `options.fonts === true || options.preloadFonts === true`. -/
def shouldPreloadFonts (o : Options) : Bool :=
  o.fonts == some true || o.preloadFonts == some true

/-- `options.fonts !== false || options.inlineFonts === true`. -/
def shouldInlineFonts (o : Options) : Bool :=
  !(o.fonts == some false) || o.inlineFonts == some true

/-! ## First pass: rule pruning (`src/index.js` lines 216-245)

Modelled from the spec: `walkStyleRules` lives in `src/css.js`, which is not
under `src/`; per §4.2 of the specification it makes a single top-to-bottom
pass, recursing into a container rule's children before visiting the rule
itself, and deletes any rule for which the visitor returns `false` (a
visitor returning nothing keeps the rule).  The visitor body below is
translated from `src/index.js` lines 216-245: a style rule keeps exactly the
selectors whose stripped form matches the document (the query capability
`q`), is deleted when none remain, and otherwise contributes every
declaration whose property contains the word `font` to the `criticalFonts`
corpus; font-face rules are kept untouched for the second pass; a container
rule is deleted when its pruned child list is empty. -/

/-- The `criticalFonts` contribution of a kept style rule's declarations
(`criticalFonts += " " + decl.value` for each matching declaration). -/
def fontDeclsContribution (ds : List Decl) : String :=
  String.join (ds.filterMap fun d =>
    if hasFontWord d.property then some (" " ++ d.value) else none)

mutual

def pruneRule (q : String → Bool) : Rule → String → List Rule × String
  | .style sels ds, cf =>
    let kept := sels.filter (fun sel => q (stripPseudos sel))
    if kept.isEmpty then ([], cf)
    else ([.style kept ds], cf ++ fontDeclsContribution ds)
  | .fontFace ds, cf => ([.fontFace ds], cf)
  | .atOther t, cf => ([.atOther t], cf)
  | .container rs, cf =>
    let res := pruneRules q rs cf
    (if res.1.isEmpty then [] else [.container res.1], res.2)

def pruneRules (q : String → Bool) : List Rule → String → List Rule × String
  | [], cf => ([], cf)
  | r :: rs, cf =>
    let hd := pruneRule q r cf
    let tl := pruneRules q rs hd.2
    (hd.1 ++ tl.1, tl.2)

end

/-! ## Second pass: font-face analysis (`src/index.js` lines 252-288)

The walk (again `walkStyleRules`, modelled from the spec as above) only
acts on font-face rules: it extracts the last `font-family` value and the
URL of the last `src` declaration, appends a font preload `<link>` to
`<head>` for a source URL not preloaded before in this run (when preloading
is enabled), and deletes the rule unless family and source are present, the
family occurs in the `criticalFonts` corpus, and inlining is enabled.  All
other rules are kept (the visitor returns nothing for them), including
container rules whose children all get deleted by this pass. -/

structure FontCfg where
  shouldPreload : Bool
  shouldInline : Bool
  criticalFonts : String

/-- Last value of the declarations with the given property name
(the `for` loop of lines 258-266 overwrites on every hit). -/
def lastDeclValue (ds : List Decl) (prop : String) : Option String :=
  ds.foldl (fun acc d => if d.property = prop then some d.value else acc) none

/-- The preload `<link>` built for a font source URL (lines 270-277):
`rel="preload" as="font"`, `crossorigin="anonymous"` when the URL contains
`://`, and `href` set to the trimmed URL. -/
def mkFontPreload (src : String) : Node :=
  let a1 := setAttr [] "rel" "preload"
  let a2 := setAttr a1 "as" "font"
  let a3 := if strContains src "://" then setAttr a2 "crossorigin" "anonymous"
    else a2
  Node.element "link" (setAttr a3 "href" (jsTrim src)) []

mutual

/-- One font-pass visit: returns the kept rules (empty or singleton), the
updated `preloadedFonts` list, and the `<link>` nodes appended to `<head>`
by this visit, in order. -/
def fontRule (c : FontCfg) : Rule → List String → List Rule × List String × List Node
  | .fontFace ds, pf =>
    let family := lastDeclValue ds "font-family"
    let src := (lastDeclValue ds "src").bind extractUrl
    let doPreload := truthy src && c.shouldPreload &&
      !(pf.contains (src.getD ""))
    let pf' := if doPreload then pf ++ [src.getD ""] else pf
    let links := if doPreload then [mkFontPreload (src.getD "")] else []
    let keep := truthy family && truthy src &&
      strContains c.criticalFonts (family.getD "") && c.shouldInline
    ((if keep then [.fontFace ds] else []), pf', links)
  | .container rs, pf =>
    let res := fontRules c rs pf
    ([.container res.1], res.2)
  | .style sels ds, pf => ([.style sels ds], pf, [])
  | .atOther t, pf => ([.atOther t], pf, [])

def fontRules (c : FontCfg) : List Rule → List String → List Rule × List String × List Node
  | [], pf => ([], pf, [])
  | r :: rs, pf =>
    let hd := fontRule c r pf
    let tl := fontRules c rs hd.2.1
    (hd.1 ++ tl.1, tl.2.1, hd.2.2 ++ tl.2.2)

end

/-! ## `processStyle` (`src/index.js` lines 194-306)

The CSS parser and serializer are the out-of-scope collaborators of
`src/css.js`; they are passed in as capabilities.  The element's text is the
`nodeValue` list of its child nodes; the result records what happens to the
`<style>` element and which preload links were appended to `<head>`. -/

inductive StyleAction where
  | unchanged
  | removed
  | replaced (text : String)
deriving DecidableEq, Repr

structure StyleOutcome where
  action : StyleAction
  headAppended : List Node
deriving Repr

/-- Lines 210-292 for a truthy sheet: parse, prune, run the font pass and
serialize; returns the reduced stylesheet text and the preload links
appended to `<head>` along the way. -/
def criticalSheet (opts : Options) (parse : String → List Rule)
    (serialize : List Rule → Bool → String) (q : String → Bool)
    (sheet : String) : String × List Node :=
  let ast := parse sheet
  let pruned := pruneRules q ast ""
  let cfg : FontCfg :=
    ⟨shouldPreloadFonts opts, shouldInlineFonts opts, pruned.2⟩
  let second := fontRules cfg pruned.1 []
  (serialize second.1 (!(opts.compress == some false)), second.2.2)

def processStyle (opts : Options) (parse : String → List Rule)
    (serialize : List Rule → Bool → String) (q : String → Bool)
    (childNodes : List String) : StyleOutcome :=
  -- lines 200-208: `sheet` is falsy when there are no child nodes or the
  -- joined text is empty; then return without touching anything
  if childNodes.length = 0 then ⟨.unchanged, []⟩
  else
    let sheet := String.intercalate "\n" childNodes
    if sheet = "" then ⟨.unchanged, []⟩
    else
      let res := criticalSheet opts parse serialize q sheet
      -- lines 294-305: drop the element when everything was pruned away,
      -- else replace its text content
      if (jsTrim res.1).length = 0 then ⟨.removed, res.2⟩
      else ⟨.replaced res.1, res.2⟩

/-! ## `embedLinkedStylesheet` (`src/index.js` lines 111-189)

The function takes one `<link rel="stylesheet">` element (its attribute
list) and the `cssFiles` mapping, and mutates the document around the link.
The result records the link's final attributes, whether it was moved to the
end of `<body>` (`document.body.appendChild(link)` relocates the existing
node), the nodes standing immediately after the link afterwards (each
`insertBefore(n, link.nextSibling)` places `n` directly after the link,
in front of anything inserted there earlier), and the nodes appended to the
end of `<body>`. -/

/-- `href.match(/^(https?:)?\/\//)`: the regex is anchored at the start, so
it holds exactly for `//`, `http://` and `https://` prefixes. -/
def isNetworkUrl (href : String) : Bool :=
  jsStartsWith href "//" || jsStartsWith href "http://" ||
    jsStartsWith href "https://"

/-- The CSS loader preamble of line 125 (`{`/`}` written as `\x7b`/`\x7d`). -/
def cssLoaderPreambleBase : String :=
  "function $loadcss(u,m,l)\x7b(l=document.createElement('link')).rel='stylesheet';l.href=u;document.head.appendChild(l)\x7d"

/-- The lazy variant (lines 127-132): the first-occurrence replacement of
`"l.href"` in the preamble. -/
def cssLoaderPreambleLazy : String :=
  replaceFirst cssLoaderPreambleBase "l.href"
    "l.media='only x';l.onload=function()\x7bl.media=m\x7d;l.href"

structure EmbedResult where
  linkAttrs : List (String × String)
  movedToBody : Bool
  insertedAfterLink : List Node
  appendedToBody : List Node
deriving Repr

/-- The `<noscript>` fallback of lines 180-188. -/
def mkNoscript (href : String) (media : Option String) : Node :=
  let a1 := setAttr [] "rel" "stylesheet"
  let a2 := setAttr a1 "href" href
  let a3 := match media with
    | some m => setAttr a2 "media" m
    | none => a2
  Node.element "noscript" [] [Node.element "link" a3 []]

def embedLinkedStylesheet (opts : Options) (link : List (String × String))
    (cssFiles : List (String × String)) : EmbedResult :=
  let href := (getAttr link "href").getD ""
  -- `media` is used only through truthiness tests (`media || "all"`,
  -- `if (media)`), so an absent attribute and `""` behave alike
  let media : Option String := match getAttr link "media" with
    | some m => if m = "" then none else some m
    | none => none
  let sheet := (cssFiles.find? (fun p => p.1 = href)).map (fun p => p.2)
  -- line 121: skip filtered resources, or network resources without filter
  if (match opts.filter with
      | some f => f href
      | none => isNetworkUrl href) then
    ⟨link, false, [], []⟩
  else
    -- lines 134-137: the critical-CSS `<style>` goes right after the link.
    -- A `href` missing from `cssFiles` leaves `sheet` undefined, which
    -- `createTextNode` stringifies to "undefined" (WebIDL DOMString
    -- conversion); nothing in `src/index.js` checks for the missing entry.
    let styleNode := Node.element "style" []
      [Node.text (match sheet with | some s => s | none => "undefined")]
    match opts.preload with
    | .off =>
      -- line 143: no mutation of the stylesheet link
      ⟨link, false, [styleNode], []⟩
    | .body =>
      -- lines 147-148: move the link node to the end of `<body>`
      ⟨link, true, [styleNode], []⟩
    | .js =>
      let attrs2 := setAttr (setAttr link "rel" "preload") "as" "style"
      let scriptText := cssLoaderPreambleBase ++ "$loadcss(" ++
        jsonStringify href ++ ")"
      let script := Node.element "script" [] [Node.text scriptText]
      if opts.noscriptFallback == some false then
        ⟨attrs2, false, [script, styleNode], []⟩
      else
        ⟨attrs2, false, [mkNoscript href media, script, styleNode], []⟩
    | .jsLazy =>
      let attrs2 := setAttr (setAttr link "rel" "preload") "as" "style"
      let scriptText := cssLoaderPreambleLazy ++ "$loadcss(" ++
        jsonStringify href ++ "," ++ jsonStringify (media.getD "all") ++ ")"
      let script := Node.element "script" [] [Node.text scriptText]
      if opts.noscriptFallback == some false then
        ⟨attrs2, false, [script, styleNode], []⟩
      else
        ⟨attrs2, false, [mkNoscript href media, script, styleNode], []⟩
    | .media =>
      -- lines 161-167: `rel` back to stylesheet, drop `as`, park `media`
      let attrs2 := setAttr (setAttr link "rel" "preload") "as" "style"
      let attrs3 := setAttr (removeAttr (setAttr attrs2 "rel" "stylesheet") "as")
        "media" "only x"
      let attrs4 := setAttr attrs3 "onload"
        ("this.media='" ++ media.getD "all" ++ "'")
      if opts.noscriptFallback == some false then
        ⟨attrs4, false, [styleNode], []⟩
      else
        ⟨attrs4, false, [mkNoscript href media, styleNode], []⟩
    | .swap =>
      let attrs2 := setAttr (setAttr link "rel" "preload") "as" "style"
      let attrs3 := setAttr attrs2 "onload" "this.rel='stylesheet'"
      if opts.noscriptFallback == some false then
        ⟨attrs3, false, [styleNode], []⟩
      else
        ⟨attrs3, false, [mkNoscript href media, styleNode], []⟩
    | .unset =>
      -- lines 171-177: keep the preload link, append a plain stylesheet
      -- link for the same URL to the end of `<body>`
      let attrs2 := setAttr (setAttr link "rel" "preload") "as" "style"
      let b1 := setAttr [] "rel" "stylesheet"
      let b2 := match media with
        | some m => setAttr b1 "media" m
        | none => b1
      let bodyLink := Node.element "link" (setAttr b2 "href" href) []
      ⟨attrs2, false, [styleNode], [bodyLink]⟩

/-- The external-stylesheet stage of `process()` (lines 91-98): every
`<link rel="stylesheet">` is handed to `embedLinkedStylesheet`; the calls
share no state (in particular each call builds its own fresh
`cssLoaderPreamble` local variable). -/
def processLinks (opts : Options) (links : List (List (String × String)))
    (cssFiles : List (String × String)) : List EmbedResult :=
  links.map (fun l => embedLinkedStylesheet opts l cssFiles)

/-! ## Spec-side restatement of the pruning pass

For the refinement claim about rule pruning, this second definition follows
the specification's words (§4.2 / the claim): per rule, a StyleRule keeps
exactly its matching selectors and is deleted when none match; a
FontFaceRule is left untouched; a ContainerRule is pruned recursively and
deleted when its nested list becomes empty.  It is compared with
`pruneRules`, the definition translated from the source. -/

mutual

def pruneRuleSpec (q : String → Bool) : Rule → Option Rule
  | .style sels ds =>
    let kept := sels.filter (fun sel => q (stripPseudos sel))
    if kept.isEmpty then none else some (.style kept ds)
  | .fontFace ds => some (.fontFace ds)
  | .atOther t => some (.atOther t)
  | .container rs =>
    let rs' := pruneRulesSpec q rs
    if rs'.isEmpty then none else some (.container rs')

def pruneRulesSpec (q : String → Bool) : List Rule → List Rule
  | [] => []
  | r :: rs =>
    match pruneRuleSpec q r with
    | none => pruneRulesSpec q rs
    | some r' => r' :: pruneRulesSpec q rs

end

/-! ## Font preload deduplication -/

mutual

/-- The font source URLs the second pass extracts, in visiting order
(depth-first; a `src` of a font-face rule counts when the `url(...)`
pattern matched and the result is truthy). -/
def collectSrcsRule : Rule → List String
  | .fontFace ds =>
    match (lastDeclValue ds "src").bind extractUrl with
    | some s => if s ≠ "" then [s] else []
    | none => []
  | .container rs => collectSrcsRules rs
  | .style _ _ => []
  | .atOther _ => []

def collectSrcsRules : List Rule → List String
  | [] => []
  | r :: rs => collectSrcsRule r ++ collectSrcsRules rs

end

/-- First-occurrence deduplication relative to an already-seen list: the
order in which `preloadedFonts.push(src)` admits new URLs. -/
def firstDedup (seen : List String) : List String → List String
  | [] => []
  | s :: ss =>
    if seen.contains s then firstDedup seen ss
    else s :: firstDedup (seen ++ [s]) ss

/-- Attributes of a node (elements only). -/
def nodeAttrs : Node → List (String × String)
  | .element _ a _ => a
  | .text _ => []

/-! ## Claim C1: the loader preamble -/

/-- Texts of the `<script>` elements a rewrite inserted after its link. -/
def scriptTexts (r : EmbedResult) : List String :=
  r.insertedAfterLink.filterMap (fun n =>
    match n with
    | Node.element "script" _ [Node.text t] => some t
    | _ => none)

/-! ## Claim C2: the font feature flags -/

/-- Modelled from the spec: inline enablement as the claim states it —
`fonts === true` turns inlining on, `fonts === false` forces it off, and
with `fonts` unset it is `inlineFonts === true` (default `false`). -/
def specInlineEnabled (o : Options) : Bool :=
  match o.fonts with
  | some true => true
  | some false => false
  | none => o.inlineFonts == some true

/-- Modelled from the spec: preload enablement as the claim states it —
enabled by default (`preloadFonts` defaults to `true`) unless explicitly
disabled, with `fonts === true` forcing it on. -/
def specPreloadEnabled (o : Options) : Bool :=
  match o.fonts with
  | some true => true
  | _ => !(o.preloadFonts == some false)

/-! ## Claim C6: the `preload: "swap"` rewrite -/

/-- Tag of a node (text nodes get the DOM's `#text`). -/
def tagOfNode : Node → String
  | .element t _ _ => t
  | .text _ => "#text"

/-- The local node sequence after the `preload: "swap"` rewrite of a
`/a.css` link: the link element itself followed by the nodes the call
inserted immediately after it (the code never inserts anything before the
link). -/
def swapLocalSeq : List Node :=
  Node.element "link"
    (embedLinkedStylesheet { preload := .swap }
      [("rel", "stylesheet"), ("href", "/a.css")]
      [("/a.css", "CRIT")]).linkAttrs [] ::
  (embedLinkedStylesheet { preload := .swap }
    [("rel", "stylesheet"), ("href", "/a.css")]
    [("/a.css", "CRIT")]).insertedAfterLink

/-! # Theorems -/

theorem length_dropWhile_le (p : Char → Bool) (l : List Char) :
    (l.dropWhile p).length ≤ l.length := by
  induction l with
  | nil => simp [List.dropWhile]
  | cons c cs ih =>
    simp only [List.dropWhile]
    split
    · exact Nat.le_succ_of_le ih
    · simp

theorem pseudoTail_length {cs1 cap rest : List Char}
    (h : pseudoTail cs1 = some (cap, rest)) : rest.length ≤ cs1.length := by
  unfold pseudoTail at h
  split at h
  · exact absurd h (by simp)
  · have hd : (cs1.dropWhile isPseudoNameChar).length ≤ cs1.length :=
      length_dropWhile_le isPseudoNameChar cs1
    split at h
    · simp at h
      obtain ⟨-, h2⟩ := h
      subst h2
      simp
    · rename_i c rest' heq
      split at h
      · simp at h
        rw [heq] at hd
        simp only [List.length_cons] at hd
        obtain ⟨-, h2⟩ := h
        subst h2
        omega
      · exact absurd h (by simp)

theorem tryPseudo_length {cs cap rest : List Char}
    (h : tryPseudo cs = some (cap, rest)) : rest.length ≤ cs.length := by
  unfold tryPseudo at h
  split at h
  · rename_i rest0
    have := pseudoTail_length h
    simp only [List.length_cons]
    omega
  · exact pseudoTail_length h

theorem stripGo_fuel_eq : ∀ (f g : Nat) (l : List Char),
    l.length ≤ f → l.length ≤ g → stripGo f l = stripGo g l := by
  intro f
  induction f with
  | zero =>
    intro g l hf _
    have : l = [] := List.length_eq_zero.mp (Nat.le_zero.mp hf)
    cases g <;> simp [this, stripGo]
  | succ f ih =>
    intro g l hf hg
    match l with
    | [] => cases g <;> simp [stripGo]
    | c :: cs =>
      simp only [List.length_cons] at hf hg
      match g with
      | 0 => omega
      | g + 1 =>
        simp only [stripGo]
        split
        · cases htp : tryPseudo cs with
          | some pr =>
            obtain ⟨cap, rest⟩ := pr
            have hr := tryPseudo_length htp
            dsimp only
            rw [ih g rest (by omega) (by omega)]
          | none =>
            dsimp only
            rw [ih g cs (by omega) (by omega)]
        · rw [ih g cs (by omega) (by omega)]

theorem stripGo_fuel (fuel : Nat) (l : List Char) (h : l.length ≤ fuel) :
    stripGo fuel l = stripPseudosL l :=
  stripGo_fuel_eq fuel l.length l h (Nat.le_refl _)

example : stripPseudos ":hover" = "" := by decide

example : stripPseudos "a:hover" = "a" := by decide

example : stripPseudos "li::before" = "li" := by decide

example : stripPseudos "input:focus[type]" = "input[type]" := by decide

example : stripPseudos "p:hover:focus" = "p:focus" := by decide

example : extractUrl "url(x.woff)" = some "x.woff" := by decide

example : extractUrl "url( 'a b.woff' )" = some "a b.woff" := by decide

example : extractUrl "local('x'), url(\"/f.woff2\") format('woff2')" =
    some "/f.woff2" := by decide

example : extractUrl "none" = none := by decide

example : extractUrl "url(https://cdn.example/f.woff)" =
    some "https://cdn.example/f.woff" := by decide

example : hasFontWord "font" = true := by decide

example : hasFontWord "font-family" = true := by decide

example : hasFontWord "Font-Size" = true := by decide

example : hasFontWord "fonts" = false := by decide

example : hasFontWord "color" = false := by decide

example : jsonStringify "/a.css" = "\"/a.css\"" := by decide

example : (pruneRules (fun s => s = "a") [Rule.style ["a", ".x"] [], Rule.style [".y"] []] "").2 = "" := by rfl

example : (processStyle defaultOptions (fun _ => [Rule.style ["body"] [Decl.mk "color" "red"]]) (fun rs _ => if rs.isEmpty then "" else "bodyCSS") (fun s => s = "body") ["x"]).action = StyleAction.replaced "bodyCSS" := by rfl

mutual

theorem pruneRule_eq (q : String → Bool) (r : Rule) (cf : String) :
    (pruneRule q r cf).1 = (pruneRuleSpec q r).toList := by
  cases r with
  | style sels ds =>
    simp only [pruneRule, pruneRuleSpec]
    split <;> simp
  | fontFace ds => simp [pruneRule, pruneRuleSpec]
  | atOther t => simp [pruneRule, pruneRuleSpec]
  | container rs =>
    have h := pruneRules_eq q rs cf
    simp only [pruneRule, pruneRuleSpec, h]
    split <;> simp_all

theorem pruneRules_eq (q : String → Bool) (rs : List Rule) (cf : String) :
    (pruneRules q rs cf).1 = pruneRulesSpec q rs := by
  cases rs with
  | nil => simp [pruneRules, pruneRulesSpec]
  | cons r rest =>
    have h1 := pruneRule_eq q r cf
    have h2 := pruneRules_eq q rest (pruneRule q r cf).2
    simp only [pruneRules, pruneRulesSpec]
    cases hs : pruneRuleSpec q r <;> simp_all

end

/-- Every rule of the spec-pruned output is the image of an input rule. -/
theorem mem_pruneRulesSpec {q : String → Bool} {rs : List Rule} {r' : Rule}
    (h : r' ∈ pruneRulesSpec q rs) : ∃ r ∈ rs, pruneRuleSpec q r = some r' := by
  induction rs with
  | nil => simp [pruneRulesSpec] at h
  | cons r rest ih =>
    simp only [pruneRulesSpec] at h
    cases hs : pruneRuleSpec q r with
    | none =>
      rw [hs] at h
      obtain ⟨r0, hr0, hspec⟩ := ih h
      exact ⟨r0, List.mem_cons_of_mem _ hr0, hspec⟩
    | some r1 =>
      rw [hs] at h
      rcases List.mem_cons.mp h with h1 | h2
      · exact ⟨r, List.mem_cons_self _ _, h1 ▸ hs⟩
      · obtain ⟨r0, hr0, hspec⟩ := ih h2
        exact ⟨r0, List.mem_cons_of_mem _ hr0, hspec⟩

/-- An input rule surviving the spec pruning is in the output. -/
theorem pruneRulesSpec_mem {q : String → Bool} {rs : List Rule} {r r' : Rule}
    (hr : r ∈ rs) (hs : pruneRuleSpec q r = some r') :
    r' ∈ pruneRulesSpec q rs := by
  induction rs with
  | nil => simp at hr
  | cons r0 rest ih =>
    rcases List.mem_cons.mp hr with h1 | h2
    · subst h1
      simp only [pruneRulesSpec, hs]
      exact List.mem_cons_self _ _
    · simp only [pruneRulesSpec]
      cases pruneRuleSpec q r0 <;> simp [ih h2]

/-- Claim C5: After the pruning pass (`src/index.js` lines 216-245, via the
spec-modelled `walkStyleRules`): the output equals the specification's
per-rule pruning; a StyleRule whose every selector fails the matcher is
absent from the output; a StyleRule with at least one matching selector is
present with exactly its matching selectors, in original order; and a
ContainerRule whose nested rule list becomes empty is deleted, so no empty
container survives. -/
theorem c5_prune_semantics (q : String → Bool) (rules : List Rule)
    (cf : String) :
    (pruneRules q rules cf).1 = pruneRulesSpec q rules
    ∧ (∀ sels ds, (∀ sel ∈ sels, q (stripPseudos sel) = false) →
        Rule.style sels ds ∉ (pruneRules q rules cf).1)
    ∧ (∀ sels ds, Rule.style sels ds ∈ rules →
        (∃ sel ∈ sels, q (stripPseudos sel) = true) →
        Rule.style (sels.filter (fun sel => q (stripPseudos sel))) ds ∈
          (pruneRules q rules cf).1)
    ∧ (∀ rs, Rule.container rs ∈ (pruneRules q rules cf).1 → rs ≠ []) := by
  have heq := pruneRules_eq q rules cf
  refine ⟨heq, ?_, ?_, ?_⟩
  · intro sels ds hfail hmem
    rw [heq] at hmem
    obtain ⟨r, -, hspec⟩ := mem_pruneRulesSpec hmem
    cases r with
    | style sels0 ds0 =>
      simp only [pruneRuleSpec] at hspec
      split at hspec
      · exact absurd hspec (by simp)
      · rename_i hne
        obtain ⟨h1, -⟩ := Rule.style.inj (Option.some.inj hspec)
        rw [List.isEmpty_iff] at hne
        obtain ⟨sel0, hsel0⟩ := List.exists_mem_of_ne_nil _ hne
        have hin : sel0 ∈ sels := h1 ▸ hsel0
        have := List.of_mem_filter (h1 ▸ hsel0 : sel0 ∈
          sels0.filter (fun sel => q (stripPseudos sel)))
        rw [hfail sel0 hin] at this
        exact Bool.false_ne_true this
    | fontFace ds0 => simp [pruneRuleSpec] at hspec
    | atOther t => simp [pruneRuleSpec] at hspec
    | container rs =>
      simp only [pruneRuleSpec] at hspec
      split at hspec <;> simp at hspec
  · intro sels ds hmem ⟨sel, hsel, hq⟩
    rw [heq]
    refine pruneRulesSpec_mem hmem ?_
    simp only [pruneRuleSpec]
    split
    · rename_i hemp
      rw [List.isEmpty_iff] at hemp
      have : sel ∈ sels.filter (fun sel => q (stripPseudos sel)) :=
        List.mem_filter.mpr ⟨hsel, hq⟩
      rw [hemp] at this
      simp at this
    · rfl
  · intro rs hmem
    rw [heq] at hmem
    obtain ⟨r, -, hspec⟩ := mem_pruneRulesSpec hmem
    cases r with
    | style sels0 ds0 =>
      simp only [pruneRuleSpec] at hspec
      split at hspec <;> simp at hspec
    | fontFace ds0 => simp [pruneRuleSpec] at hspec
    | atOther t => simp [pruneRuleSpec] at hspec
    | container rs0 =>
      simp only [pruneRuleSpec] at hspec
      split at hspec
      · exact absurd hspec (by simp)
      · rename_i hne
        obtain h1 := Rule.container.inj (Option.some.inj hspec)
        rw [List.isEmpty_iff] at hne
        exact h1 ▸ hne

/-- Witness for `c5_prune_semantics` at a concrete matcher and stylesheet:
`.unused` matches nothing and its rule disappears; `p:hover, .unused`
keeps exactly `p:hover`; the `@media`-style container emptied by pruning is
gone. -/
theorem c5_prune_semantics_witness :
    (Rule.style [".unused"] [] ∉
      (pruneRules (fun s => s = "p") [Rule.style [".unused"] [],
        Rule.style ["p:hover", ".unused"] [],
        Rule.container [Rule.style [".gone"] []]] "").1)
    ∧ Rule.style ["p:hover"] [] ∈
      (pruneRules (fun s => s = "p") [Rule.style [".unused"] [],
        Rule.style ["p:hover", ".unused"] [],
        Rule.container [Rule.style [".gone"] []]] "").1 := by
  have h := c5_prune_semantics (fun s => s = "p")
    [Rule.style [".unused"] [], Rule.style ["p:hover", ".unused"] [],
     Rule.container [Rule.style [".gone"] []]] ""
  refine ⟨h.2.1 [".unused"] [] (by decide), ?_⟩
  have := h.2.2.1 ["p:hover", ".unused"] [] (by simp)
    ⟨"p:hover", by simp, by decide⟩
  simpa using this

theorem firstDedup_append (xs : List String) : ∀ (seen : List String)
    (ys : List String), firstDedup seen (xs ++ ys) =
      firstDedup seen xs ++
        firstDedup (seen ++ firstDedup seen xs) ys := by
  induction xs with
  | nil => simp [firstDedup]
  | cons x xs ih =>
    intro seen ys
    simp only [List.cons_append, firstDedup]
    split
    · exact ih seen ys
    · simp only [List.append_eq]
      rw [ih (seen ++ [x]) ys]
      simp

theorem count_firstDedup (u : String) : ∀ (l seen : List String),
    List.count u (firstDedup seen l) =
      if u ∈ l ∧ u ∉ seen then 1 else 0 := by
  intro l
  induction l with
  | nil => simp [firstDedup]
  | cons s ss ih =>
    intro seen
    simp only [firstDedup]
    split
    · rename_i hc
      rw [ih seen]
      have hs : s ∈ seen := by simpa using hc
      by_cases hu : u = s
      · subst hu
        simp [hs]
      · simp [List.mem_cons, hu]
    · rename_i hc
      have hs : s ∉ seen := by simpa using hc
      rw [List.count_cons, ih (seen ++ [s])]
      by_cases hu : u = s
      · subst hu
        simp [hs]
      · simp [List.mem_cons, hu, List.mem_append, Ne.symm hu]

mutual

/-- With preloading enabled, one font-pass visit extends `preloadedFonts`
by its newly seen source URLs and appends exactly one preload link per such
URL. -/
theorem fontRule_state (c : FontCfg) (hc : c.shouldPreload = true)
    (r : Rule) (pf : List String) :
    (fontRule c r pf).2.1 = pf ++ firstDedup pf (collectSrcsRule r)
    ∧ (fontRule c r pf).2.2 =
        (firstDedup pf (collectSrcsRule r)).map mkFontPreload := by
  cases r with
  | fontFace ds =>
    simp only [fontRule, collectSrcsRule, hc]
    cases hsrc : (lastDeclValue ds "src").bind extractUrl with
    | none => simp [truthy, firstDedup]
    | some s =>
      by_cases hs : s = ""
      · subst hs
        simp [truthy, firstDedup]
      · simp only [truthy, hs]
        by_cases hpf : s ∈ pf
        all_goals simp [hpf, firstDedup, hs]
  | container rs =>
    have h := fontRules_state c hc rs pf
    simp only [fontRule, collectSrcsRule]
    exact h
  | style sels ds => simp [fontRule, collectSrcsRule, firstDedup]
  | atOther t => simp [fontRule, collectSrcsRule, firstDedup]

theorem fontRules_state (c : FontCfg) (hc : c.shouldPreload = true)
    (rs : List Rule) (pf : List String) :
    (fontRules c rs pf).2.1 = pf ++ firstDedup pf (collectSrcsRules rs)
    ∧ (fontRules c rs pf).2.2 =
        (firstDedup pf (collectSrcsRules rs)).map mkFontPreload := by
  cases rs with
  | nil => simp [fontRules, collectSrcsRules, firstDedup]
  | cons r rest =>
    obtain ⟨h1, h2⟩ := fontRule_state c hc r pf
    obtain ⟨h3, h4⟩ := fontRules_state c hc rest (fontRule c r pf).2.1
    simp only [fontRules, collectSrcsRules]
    rw [firstDedup_append]
    constructor
    · rw [h3, h1, List.append_assoc]
    · rw [h4, h2, h1, List.map_append]

end

/-- Claim C7: Within one run of the font pass with preloading enabled, the
preload links appended to `<head>` are exactly one `mkFontPreload` per
distinct extracted source URL (first occurrence order); any URL extracted
from some `@font-face` rule occurs exactly once in that deduplicated list;
and its link carries `crossorigin="anonymous"` exactly when the URL
contains `://`. -/
theorem c7_font_preload_dedup (c : FontCfg) (hc : c.shouldPreload = true)
    (rules : List Rule) (u : String) (hu : u ∈ collectSrcsRules rules) :
    (fontRules c rules []).2.2 =
      (firstDedup [] (collectSrcsRules rules)).map mkFontPreload
    ∧ List.count u (firstDedup [] (collectSrcsRules rules)) = 1
    ∧ (getAttr (nodeAttrs (mkFontPreload u)) "crossorigin" = some "anonymous"
        ↔ strContains u "://" = true) := by
  refine ⟨(fontRules_state c hc rules []).2, ?_, ?_⟩
  · rw [count_firstDedup]
    simp [hu]
  · cases hco : strContains u "://" <;>
      simp [mkFontPreload, hco, nodeAttrs, setAttr, getAttr]

/-- Witness for `c7_font_preload_dedup`: two `@font-face` rules with the
same `src: url(a.woff)` produce a single preload link without
`crossorigin`. -/
theorem c7_font_preload_dedup_witness :
    ("a.woff" ∈ collectSrcsRules
      [Rule.fontFace [⟨"font-family", "A"⟩, ⟨"src", "url(a.woff)"⟩],
       Rule.fontFace [⟨"src", "url(a.woff)"⟩]])
    ∧ ((fontRules ⟨true, true, ""⟩
        [Rule.fontFace [⟨"font-family", "A"⟩, ⟨"src", "url(a.woff)"⟩],
         Rule.fontFace [⟨"src", "url(a.woff)"⟩]] []).2.2 =
      (firstDedup [] (collectSrcsRules
        [Rule.fontFace [⟨"font-family", "A"⟩, ⟨"src", "url(a.woff)"⟩],
         Rule.fontFace [⟨"src", "url(a.woff)"⟩]])).map mkFontPreload
    ∧ List.count "a.woff" (firstDedup [] (collectSrcsRules
        [Rule.fontFace [⟨"font-family", "A"⟩, ⟨"src", "url(a.woff)"⟩],
         Rule.fontFace [⟨"src", "url(a.woff)"⟩]])) = 1
    ∧ (getAttr (nodeAttrs (mkFontPreload "a.woff")) "crossorigin" =
          some "anonymous" ↔ strContains "a.woff" "://" = true)) :=
  ⟨by decide, c7_font_preload_dedup ⟨true, true, ""⟩ rfl _ "a.woff" (by decide)⟩

/-- Claim C1: `cssLoaderPreamble` is a local of each `embedLinkedStylesheet`
call (`src/index.js` line 125), so with the `"js"` strategy the shared
loader body is emitted again for every rewritten link: processing two
stylesheet links yields two scripts that both contain the full
`function $loadcss` definition, and the second one is the whole preamble
followed by the invocation — not the invocation alone.  This contradicts
the claim (and the comment on line 124, which announces a once-per-document
injection). -/
theorem c1_loader_preamble_every_link :
    ((processLinks { preload := .js }
        [[("rel", "stylesheet"), ("href", "/a.css")],
         [("rel", "stylesheet"), ("href", "/b.css")]]
        [("/a.css", "A"), ("/b.css", "B")]).map
      (fun r => (scriptTexts r).countP
        (fun t => strContains t "function $loadcss"))) = [1, 1]
    ∧ ((processLinks { preload := .js }
        [[("rel", "stylesheet"), ("href", "/a.css")],
         [("rel", "stylesheet"), ("href", "/b.css")]]
        [("/a.css", "A"), ("/b.css", "B")]).map scriptTexts) =
      [[cssLoaderPreambleBase ++ "$loadcss(\"/a.css\")"],
       [cssLoaderPreambleBase ++ "$loadcss(\"/b.css\")"]] :=
  ⟨by rfl, by rfl⟩

/-- Claim C2: At the failing input `options = {}` (no font option set) the
code diverges from the claim and from the file's own JSDoc defaults:
`shouldInlineFonts` (line 249, `options.fonts !== false ||
options.inlineFonts === true`) is `true` although inlining should default
to off, and `shouldPreloadFonts` (line 247) is `false` although preloading
should default to on.  Consequently a used `@font-face` rule with family
and source is retained by the second pass and no preload link is appended —
the opposite of the claim on both counts. -/
theorem c2_font_flag_defaults :
    shouldInlineFonts defaultOptions = true
    ∧ specInlineEnabled defaultOptions = false
    ∧ shouldPreloadFonts defaultOptions = false
    ∧ specPreloadEnabled defaultOptions = true
    ∧ (fontRules
        ⟨shouldPreloadFonts defaultOptions, shouldInlineFonts defaultOptions,
         " \"A\", sans-serif"⟩
        [Rule.fontFace [⟨"font-family", "\"A\""⟩, ⟨"src", "url(a.woff)"⟩]]
        []).1 =
      [Rule.fontFace [⟨"font-family", "\"A\""⟩, ⟨"src", "url(a.woff)"⟩]]
    ∧ (fontRules
        ⟨shouldPreloadFonts defaultOptions, shouldInlineFonts defaultOptions,
         " \"A\", sans-serif"⟩
        [Rule.fontFace [⟨"font-family", "\"A\""⟩, ⟨"src", "url(a.woff)"⟩]]
        []).2.2 = [] :=
  ⟨rfl, rfl, rfl, rfl, rfl, rfl⟩

/-! ## Claim C3: a `href` missing from the `cssFiles` mapping -/

/-- Claim C3 counterexample: A stylesheet link whose `href` has no entry in
`cssFiles` is *not* skipped: the result is not the untouched link with no
insertions, as the claim would have it. -/
theorem c3_missing_sheet_counterexample :
    embedLinkedStylesheet defaultOptions
      [("rel", "stylesheet"), ("href", "/missing.css")] [] ≠
    ⟨[("rel", "stylesheet"), ("href", "/missing.css")], false, [], []⟩ := by
  intro h
  have h2 := congrArg (fun r => r.insertedAfterLink.length) h
  exact Nat.one_ne_zero h2

/-- Claim C3 amended: A link whose `href` is missing from `cssFiles` (and not
filtered) is processed like any other: `src/index.js` never checks the
lookup, so `createTextNode` receives `undefined` (stringified to
`"undefined"` by DOMString conversion) and the full default delivery
rewrite still runs; the `process()` call itself does not fail. -/
theorem c3_missing_sheet_processed (href : String)
    (cssFiles : List (String × String))
    (hmiss : (cssFiles.find? (fun p => p.1 = href)).map (fun p => p.2) = none)
    (hnet : isNetworkUrl href = false) :
    embedLinkedStylesheet defaultOptions
      [("rel", "stylesheet"), ("href", href)] cssFiles =
    ⟨[("rel", "preload"), ("href", href), ("as", "style")], false,
     [Node.element "style" [] [Node.text "undefined"]],
     [Node.element "link" [("rel", "stylesheet"), ("href", href)] []]⟩ := by
  simp [embedLinkedStylesheet, hmiss, hnet, getAttr, setAttr, defaultOptions]

/-- Witness for `c3_missing_sheet_processed` with an empty mapping. -/
theorem c3_missing_sheet_processed_witness :
    (([] : List (String × String)).find?
        (fun p => p.1 = "/missing.css")).map (fun p => p.2) = none
    ∧ isNetworkUrl "/missing.css" = false
    ∧ embedLinkedStylesheet defaultOptions
        [("rel", "stylesheet"), ("href", "/missing.css")] [] =
      ⟨[("rel", "preload"), ("href", "/missing.css"), ("as", "style")], false,
       [Node.element "style" [] [Node.text "undefined"]],
       [Node.element "link" [("rel", "stylesheet"), ("href", "/missing.css")] []]⟩ :=
  ⟨rfl, rfl, c3_missing_sheet_processed "/missing.css" [] rfl rfl⟩

/-! ## Claim C4: the matcher fails closed -/

/-- Claim C4: The selector matcher of lines 219-224 applies the query to the
stripped selector and treats "no element returned" as non-matching; with
the spec-modelled DOM query (total, and returning no element for an empty —
or, per §4.1, any invalid — selector) a selector whose stripped form is
empty is simply dropped, and a style rule all of whose selectors strip to
the empty selector is removed from the output instead of aborting the
pass (every function involved is total, so no error can be raised). -/
theorem c4_matcher_fails_closed (q : String → Bool) (hq : q "" = false)
    (sel : String) (hsel : stripPseudos sel = "")
    (sels : List String) (ds : List Decl) (cf : String)
    (hall : ∀ s ∈ sels, stripPseudos s = "") :
    q (stripPseudos sel) = false
    ∧ (pruneRules q [Rule.style sels ds] cf).1 = [] := by
  constructor
  · rw [hsel]
    exact hq
  · have hfil : sels.filter (fun s => q (stripPseudos s)) = [] := by
      rw [ List.filter_eq_nil_iff]
      intro s hs
      rw [hall s hs, hq]
      simp
    simp [pruneRules, pruneRule, hfil]

/-- Witness for `c4_matcher_fails_closed`: a bare `:hover` selector strips
to the empty string and its rule is dropped without an error. -/
theorem c4_matcher_fails_closed_witness :
    ((fun s => !s.isEmpty) "" = false)
    ∧ stripPseudos ":hover" = ""
    ∧ ((fun s => !s.isEmpty) (stripPseudos ":hover") = false
      ∧ (pruneRules (fun s => !s.isEmpty)
          [Rule.style [":hover"] [⟨"color", "red"⟩]] "").1 = []) :=
  ⟨rfl, rfl, c4_matcher_fails_closed (fun s => !s.isEmpty) rfl ":hover" rfl
    [":hover"] [⟨"color", "red"⟩] "" (by decide)⟩

/-- Claim C6 counterexample: With `preload: "swap"` the inlined `<style>`
does *not* precede the link: `insertBefore(style, link.nextSibling)` (line
137) puts it after the link, and the later `<noscript>` insertion lands
between them, so the sequence is link, noscript, style.  There is no
position of a `<style>` strictly before a `<link>`, contradicting the
claim's order style, link, noscript. -/
theorem c6_swap_order_counterexample :
    swapLocalSeq.map tagOfNode = ["link", "noscript", "style"]
    ∧ ¬ ∃ i j : Nat, i < j
      ∧ (swapLocalSeq.get? i).map tagOfNode = some "style"
      ∧ (swapLocalSeq.get? j).map tagOfNode = some "link" := by
  refine ⟨rfl, ?_⟩
  rintro ⟨i, j, hij, hsty, hlnk⟩
  rcases j with _ | _ | _ | j
  · omega
  · rw [show (swapLocalSeq.get? 1).map tagOfNode = some "noscript" from rfl]
      at hlnk
    exact absurd hlnk (by simp)
  · rw [show (swapLocalSeq.get? 2).map tagOfNode = some "style" from rfl]
      at hlnk
    exact absurd hlnk (by simp)
  · rw [show (swapLocalSeq.get? (j + 3)).map tagOfNode = none from rfl]
      at hlnk
    exact absurd hlnk (by simp)

/-- Claim C6 amended: With `preload: "swap"` and `noscriptFallback` not set
to `false`, a processed `<link rel="stylesheet" href=...>` whose sheet is
in `cssFiles` yields, in order: the link mutated to `rel="preload"
as="style" onload="this.rel='stylesheet'"`, immediately after it a
`<noscript>` wrapping `<link rel="stylesheet" href=...>`, and then the
inlined `<style>` carrying the sheet (reduced to its critical subset by the
later `processStyle` pass over `<style>` elements). -/
theorem c6_swap_rewrite (href sheet : String)
    (cssFiles : List (String × String))
    (hsheet : (cssFiles.find? (fun p => p.1 = href)).map (fun p => p.2) =
      some sheet)
    (hnet : isNetworkUrl href = false) :
    embedLinkedStylesheet { preload := .swap }
      [("rel", "stylesheet"), ("href", href)] cssFiles =
    ⟨[("rel", "preload"), ("href", href), ("as", "style"),
      ("onload", "this.rel='stylesheet'")], false,
     [Node.element "noscript" []
        [Node.element "link" [("rel", "stylesheet"), ("href", href)] []],
      Node.element "style" [] [Node.text sheet]], []⟩ := by
  simp [embedLinkedStylesheet, mkNoscript, hsheet, hnet, getAttr, setAttr]

/-- Witness for `c6_swap_rewrite`. -/
theorem c6_swap_rewrite_witness :
    ((([("/a.css", "CRIT")] : List (String × String)).find?
        (fun p => p.1 = "/a.css")).map (fun p => p.2) = some "CRIT")
    ∧ isNetworkUrl "/a.css" = false
    ∧ embedLinkedStylesheet { preload := .swap }
        [("rel", "stylesheet"), ("href", "/a.css")] [("/a.css", "CRIT")] =
      ⟨[("rel", "preload"), ("href", "/a.css"), ("as", "style"),
        ("onload", "this.rel='stylesheet'")], false,
       [Node.element "noscript" []
          [Node.element "link" [("rel", "stylesheet"), ("href", "/a.css")] []],
        Node.element "style" [] [Node.text "CRIT"]], []⟩ :=
  ⟨rfl, rfl, c6_swap_rewrite "/a.css" "CRIT" [("/a.css", "CRIT")] rfl rfl⟩

/-! ## Claim C8: filtered and network links are untouched -/

/-- Claim C8: When the link's `href` is selected by the filter predicate (or,
with no filter, matches the `^(https?:)?//` network heuristic), the rewrite
returns at line 122 before doing anything: the link keeps its attributes,
nothing is inserted anywhere and nothing is appended to `<body>`. -/
theorem c8_filtered_link_untouched (opts : Options)
    (link : List (String × String)) (cssFiles : List (String × String))
    (hskip : (match opts.filter with
      | some f => f ((getAttr link "href").getD "")
      | none => isNetworkUrl ((getAttr link "href").getD "")) = true) :
    embedLinkedStylesheet opts link cssFiles = ⟨link, false, [], []⟩ := by
  simp only [embedLinkedStylesheet, hskip, if_true]

/-- Witness for `c8_filtered_link_untouched`: a CDN URL with no filter
option. -/
theorem c8_filtered_link_untouched_witness :
    ((match defaultOptions.filter with
      | some f => f ((getAttr [("rel", "stylesheet"),
          ("href", "https://cdn.example/x.css")] "href").getD "")
      | none => isNetworkUrl ((getAttr [("rel", "stylesheet"),
          ("href", "https://cdn.example/x.css")] "href").getD "")) = true)
    ∧ embedLinkedStylesheet defaultOptions
        [("rel", "stylesheet"), ("href", "https://cdn.example/x.css")]
        [("https://cdn.example/x.css", "X")] =
      ⟨[("rel", "stylesheet"), ("href", "https://cdn.example/x.css")],
       false, [], []⟩ :=
  ⟨rfl, c8_filtered_link_untouched defaultOptions
    [("rel", "stylesheet"), ("href", "https://cdn.example/x.css")]
    [("https://cdn.example/x.css", "X")] rfl⟩

/-! ## Claim C9: `preload: false` inlines but never mutates -/

/-- Claim C9: With `options.preload === false`, a processed (unfiltered) link
still gets the inline step — exactly one new `<style>` holding the sheet
text, immediately after the link — but the function returns at line 143
before any mutation: the link's attributes are unchanged, it is not moved,
and no script, body link or noscript fallback is created. -/
theorem c9_preload_off_inline_only (opts : Options)
    (link : List (String × String)) (cssFiles : List (String × String))
    (hoff : opts.preload = .off)
    (hskip : (match opts.filter with
      | some f => f ((getAttr link "href").getD "")
      | none => isNetworkUrl ((getAttr link "href").getD "")) = false) :
    embedLinkedStylesheet opts link cssFiles =
    ⟨link, false,
     [Node.element "style" []
        [Node.text (match (cssFiles.find? (fun p =>
            p.1 = (getAttr link "href").getD "")).map (fun p => p.2) with
          | some s => s
          | none => "undefined")]], []⟩ := by
  simp only [embedLinkedStylesheet, hskip, hoff, Bool.false_eq_true,
    if_false]

/-- Witness for `c9_preload_off_inline_only`. -/
theorem c9_preload_off_inline_only_witness :
    ({ preload := .off : Options}.preload = PreloadVal.off)
    ∧ ((match ({ preload := .off : Options}).filter with
      | some f => f ((getAttr [("rel", "stylesheet"), ("href", "/a.css")]
          "href").getD "")
      | none => isNetworkUrl ((getAttr [("rel", "stylesheet"),
          ("href", "/a.css")] "href").getD "")) = false)
    ∧ embedLinkedStylesheet { preload := .off }
        [("rel", "stylesheet"), ("href", "/a.css")] [("/a.css", "BODY")] =
      ⟨[("rel", "stylesheet"), ("href", "/a.css")], false,
       [Node.element "style" [] [Node.text "BODY"]], []⟩ := by
  refine ⟨rfl, rfl, ?_⟩
  have h := c9_preload_off_inline_only { preload := .off }
    [("rel", "stylesheet"), ("href", "/a.css")] [("/a.css", "BODY")] rfl rfl
  simpa using h

/-! ## Claim C10: empty `<style>` elements -/

/-- Claim C10: A `<style>` element with no child nodes (or whose joined text
is empty) makes `processStyle` return at line 208 with nothing changed —
the empty element is not removed and no preload link is appended; and the
`.removed` outcome arises only for a truthy (nonempty) sheet whose reduced
serialization is empty after trimming. -/
theorem c10_empty_style_untouched (opts : Options)
    (parse : String → List Rule) (serialize : List Rule → Bool → String)
    (q : String → Bool) :
    processStyle opts parse serialize q [] = ⟨.unchanged, []⟩
    ∧ (∀ cns, String.intercalate "\n" cns = "" →
        processStyle opts parse serialize q cns = ⟨.unchanged, []⟩)
    ∧ (∀ cns, (processStyle opts parse serialize q cns).action = .removed →
        cns ≠ [] ∧ String.intercalate "\n" cns ≠ ""
        ∧ (jsTrim (criticalSheet opts parse serialize q
            (String.intercalate "\n" cns)).1).length = 0) := by
  refine ⟨by simp [processStyle], ?_, ?_⟩
  · intro cns hemp
    cases cns with
    | nil => simp [processStyle]
    | cons c rest => simp [processStyle, hemp]
  · intro cns hrem
    cases cns with
    | nil => simp [processStyle] at hrem
    | cons c rest =>
      simp only [processStyle, List.length_cons] at hrem
      rw [if_neg (by simp)] at hrem
      by_cases hemp : String.intercalate "\n" (c :: rest) = ""
      · rw [if_pos hemp] at hrem
        simp at hrem
      · rw [if_neg hemp] at hrem
        refine ⟨by simp, hemp, ?_⟩
        by_cases hz : (jsTrim (criticalSheet opts parse serialize q
            (String.intercalate "\n" (c :: rest))).1).length = 0
        · exact hz
        · rw [if_neg hz] at hrem
          simp at hrem

/-- Witness for `c10_empty_style_untouched`, with a serializer that returns
the empty string once everything is pruned: the empty element case is
untouched, and a concrete `.removed` outcome exhibits its preconditions. -/
theorem c10_empty_style_untouched_witness :
    processStyle defaultOptions (fun _ => [Rule.style [".x"] []])
      (fun rs _ => if rs.isEmpty then "" else "X") (fun _ => false) [] =
      ⟨.unchanged, []⟩
    ∧ ((processStyle defaultOptions (fun _ => [Rule.style [".x"] []])
        (fun rs _ => if rs.isEmpty then "" else "X") (fun _ => false)
        ["span.x"]).action = .removed →
      ("span.x" :: []) ≠ [] ∧ String.intercalate "\n" ["span.x"] ≠ ""
      ∧ (jsTrim (criticalSheet defaultOptions (fun _ => [Rule.style [".x"] []])
          (fun rs _ => if rs.isEmpty then "" else "X") (fun _ => false)
          (String.intercalate "\n" ["span.x"])).1).length = 0) :=
  ⟨(c10_empty_style_untouched defaultOptions (fun _ => [Rule.style [".x"] []])
      (fun rs _ => if rs.isEmpty then "" else "X") (fun _ => false)).1,
   fun h => (c10_empty_style_untouched defaultOptions
      (fun _ => [Rule.style [".x"] []])
      (fun rs _ => if rs.isEmpty then "" else "X") (fun _ => false)).2.2
      ["span.x"] h⟩

end Critters
